import Mathlib

/-!
Shallow embedding of the QuizBot CSV ingestion pipeline (src/main.py).

The embedding models the pure data flow of the function process_csv_content
and its helpers.  Python strings are modelled as Lean String values; the
character-level operations (isalnum, lower, upper, strip, slicing) are
modelled over the underlying character list and agree with Python on the
ASCII inputs the claims are about.  The two external effects of the code
are made explicit parameters:

  * csv.Sniffer.sniff, which can fail, is an oracle of type
    String -> Option Dialect (an exception is modelled as none);
  * bot.send_poll, which can fail, is an oracle of type
    Nat -> QuizRecord -> Bool telling for each row whether delivery
    succeeded.

csv.reader with the default excel dialect is modelled by readerRows for
input that contains no quote characters: lines split on a newline, a blank
line giving the empty row (as csv.reader does), other lines split on
commas.  csv.DictReader semantics (skipping blank rows, restval filling of
short rows, duplicate field names collapsing to the last paired cell) are
folded into the row access function getFromRow, which reads the cell at
the index stored in the header map, as the dict-based lookup in the source
resolves to exactly that cell.
-/

/-- REQUIRED_HEADERS from the source: the seven canonical human-readable
header labels. -/
def requiredHeaders : List String :=
  ["Question", "Option A", "Option B", "Option C", "Option D", "Answer", "Description"]

/-- Model of the helper that normalizes header text: keep only alphanumeric
characters and lower-case them.  Mirrors the generator expression of the
source (filter isalnum, then lower each character). -/
def normalizeHeader (h : String) : String :=
  String.mk ((h.data.filter Char.isAlphanum).map Char.toLower)

/-- REQUIRED_NORMALS from the source.  The source stores them in a set; the
seven normalized labels are pairwise distinct, so a list models the set
faithfully (the canonical order is fixed here). -/
def requiredNormals : List String := requiredHeaders.map normalizeHeader

/-- Building of the Python dict comprehension for header_map: iterate over
the normalized headers in order, each assignment overwriting any earlier
binding of the same key. -/
def headerMapGo (m : String → Option Nat) (i : Nat) : List String → String → Option Nat
  | [] => m
  | h :: t => headerMapGo (fun k => if k = h then some i else m k) (i + 1) t

/-- header_map from the source: mapping from normalized header key to the
column index, built by the dict comprehension (later entries overwrite
earlier ones, which is Python dict semantics). -/
def headerMap (norms : List String) : String → Option Nat :=
  headerMapGo (fun _ => none) 0 norms

/-- missing from the source: REQUIRED_NORMALS set-minus the set of header
normals, kept in the canonical order of requiredNormals. -/
def missingNormals (norms : List String) : List String :=
  requiredNormals.filter (fun n => decide (¬ n ∈ norms))

/-- human_missing from the source: for each missing normal the first
required header whose normal equals it.  Because the seven normals are
pairwise distinct this is exactly the required headers whose normal is
absent; the source emits them in Python set-iteration order, which is
modelled here by the canonical order. -/
def humanMissing (norms : List String) : List String :=
  requiredHeaders.filter (fun rh => decide (¬ normalizeHeader rh ∈ norms))

/-- Model of Python str.strip: drop leading and trailing whitespace. -/
def pyStrip (s : String) : String :=
  String.mk (((s.data.dropWhile Char.isWhitespace).reverse.dropWhile Char.isWhitespace).reverse)

/-- Model of Python str.upper (agrees with Python on ASCII). -/
def pyUpper (s : String) : String :=
  String.mk (s.data.map Char.toUpper)

/-- get_from_row from the source: look up the column index of the required
normal in header_map and read that cell of the row, the empty string when
the row is too short, then strip it.  The dict-based access of the source
through DictReader resolves to the cell at exactly this index (duplicate
header strings collapse to the last occurrence, which is the index stored
in header_map, and restval None becomes the empty string).  The none
branch is unreachable in the program: the source only calls this with
required normals after the missing-header check has passed. -/
def getFromRow (norms : List String) (row : List String) (k : String) : String :=
  match headerMap norms k with
  | some idx => pyStrip (row.getD idx "")
  | none => ""

/-- mapper from the source: the answer-letter table. -/
def mapper (k : String) : Option Nat :=
  if k = "A" then some 0
  else if k = "B" then some 1
  else if k = "C" then some 2
  else if k = "D" then some 3
  else none

/-- Explanation truncation from the source: when the length exceeds 240,
keep the first 237 characters and append the three-character ellipsis
marker. -/
def truncateExpl (e : String) : String :=
  if 240 < e.length then String.mk (e.data.take 237 ++ ['.', '.', '.']) else e

/-- The validated quiz record the source sends as a poll. -/
structure QuizRecord where
  question : String
  options : List String
  correctOptionIndex : Nat
  explanation : String
  deriving DecidableEq

/-- Row-level rejection reasons of the source, as structured data. -/
inductive SkipReason where
  | emptyQuestion : SkipReason
  | missingOptions : SkipReason
  | invalidAnswer (value : String) : SkipReason
  deriving DecidableEq

/-- Result of validating one decoded row. -/
inductive RowResult where
  | accepted (record : QuizRecord) : RowResult
  | skipped (reason : SkipReason) : RowResult
  deriving DecidableEq

/-- The per-row validation logic of the source, over the decoded field
values: empty-question check, empty-option check, answer-letter check (on
the upper-cased answer), then explanation truncation and acceptance. -/
def validateFields (question : String) (options : List String) (answer : String)
    (explanation : String) : RowResult :=
  if question = "" then .skipped .emptyQuestion
  else if options.any (fun o => decide (o = "")) then .skipped .missingOptions
  else
    match mapper (pyUpper answer) with
    | none => .skipped (.invalidAnswer (pyUpper answer))
    | some i => .accepted ⟨question, options, i, truncateExpl explanation⟩

/-- Decoding plus validation of one raw row, with the field extraction of
the source (get_from_row applied to the normals of the required labels). -/
def validateRow (norms : List String) (row : List String) : RowResult :=
  validateFields
    (getFromRow norms row (normalizeHeader "Question"))
    [getFromRow norms row (normalizeHeader "Option A"),
     getFromRow norms row (normalizeHeader "Option B"),
     getFromRow norms row (normalizeHeader "Option C"),
     getFromRow norms row (normalizeHeader "Option D")]
    (getFromRow norms row (normalizeHeader "Answer"))
    (getFromRow norms row (normalizeHeader "Description"))

/-- The observable outcomes of one batch: the two fatal messages, the three
per-row events (a poll delivered, a delivery error reported, a skip
message), and the final count message. -/
inductive Outcome where
  | fatalEmpty : Outcome
  | fatalMissing (missing : List String) (headersSeen : List String) : Outcome
  | accepted (rowNumber : Nat) (record : QuizRecord) : Outcome
  | sendFailed (rowNumber : Nat) (record : QuizRecord) : Outcome
  | skipped (rowNumber : Nat) (reason : SkipReason) : Outcome
  | summary (count : Nat) : Outcome
  deriving DecidableEq

/-- The row number an outcome reports, none for batch-level outcomes. -/
def Outcome.rowNum : Outcome → Option Nat
  | .accepted n _ => some n
  | .sendFailed n _ => some n
  | .skipped n _ => some n
  | _ => none

/-- The main per-row loop of the source: rows are numbered from the given
start, a validated record is delivered through the send oracle (success
increments the count, failure produces an error outcome), and after the
last row the final count is reported. -/
def processData (send : Nat → QuizRecord → Bool) (norms : List String) :
    List (List String) → Nat → Nat → List Outcome
  | [], _, count => [.summary count]
  | row :: rest, n, count =>
    match validateRow norms row with
    | .skipped r => .skipped n r :: processData send norms rest (n + 1) count
    | .accepted qr =>
      if send n qr then .accepted n qr :: processData send norms rest (n + 1) (count + 1)
      else .sendFailed n qr :: processData send norms rest (n + 1) count

/-- The batch pipeline over already-parsed rows: no rows at all is the
empty-input fatal (StopIteration when reading the header); a header with
missing required fields is the missing-header fatal; otherwise the data
rows are the non-blank rows after the header (DictReader skips blank rows
and the source skips the first yielded row, the header), numbered from 1
with the count starting at 0. -/
def processRows (send : Nat → QuizRecord → Bool) (rows : List (List String)) : List Outcome :=
  match rows with
  | [] => [.fatalEmpty]
  | headers :: rest =>
    if missingNormals (headers.map normalizeHeader) = [] then
      processData send (headers.map normalizeHeader)
        (((headers :: rest).filter (fun r => decide (r ≠ []))).drop 1) 1 0
    else
      [.fatalMissing (humanMissing (headers.map normalizeHeader)) headers]

/-- Splitting a character list on a separator character; the empty list
gives one empty part, mirroring str.split semantics used to model lines
and fields. -/
def splitOnChar (c : Char) : List Char → List (List Char)
  | [] => [[]]
  | x :: xs =>
    match splitOnChar c xs with
    | [] => if x = c then [[], []] else [[x]]
    | y :: ys => if x = c then [] :: y :: ys else (x :: y) :: ys

/-- Model of csv.reader with the default excel dialect on quote-free input:
split the text into lines (a trailing newline does not create an extra
line), a blank line is the empty row, any other line splits on commas. -/
def readerRows (content : String) : List (List String) :=
  let parts := (splitOnChar '\n' content.data).map String.mk
  let ls := if parts.getLast? = some "" then parts.dropLast else parts
  ls.map (fun l => if l = "" then [] else (splitOnChar ',' l.data).map String.mk)

/-- process_csv_content from the source, over decoded text, parameterized
by the delivery oracle. -/
def processCsvContent (send : Nat → QuizRecord → Bool) (content : String) : List Outcome :=
  processRows send (readerRows content)

/-- A csv dialect as far as the source observes it: delimiter and quote
character. -/
structure Dialect where
  delimiter : Char
  quotechar : Char
  deriving DecidableEq

/-- csv.excel, the fallback dialect: comma-delimited, double-quote
quoting. -/
def csvExcel : Dialect := ⟨',', '"'⟩

/-- The sniffing sample of the source: the first 4096 characters of the
input. -/
def sampleOf (content : String) : String :=
  String.mk (content.data.take 4096)

/-- The dialect-sniffing step of the source: run the sniffer oracle on the
sample; an exception (modelled as none) falls back to csv.excel. -/
def sniffDialect (oracle : String → Option Dialect) (content : String) : Dialect :=
  match oracle (sampleOf content) with
  | some d => d
  | none => csvExcel

/-- The column mapping of the spec, as the source realizes it: each
required header paired with the index header_map assigns to its normal,
fields whose normal is absent contributing no entry. -/
def columnMapping (headers : List String) : List (String × Nat) :=
  requiredHeaders.filterMap
    (fun rh => (headerMap (headers.map normalizeHeader) (normalizeHeader rh)).map
      (fun i => (rh, i)))

/-- Statement-side helper: the outcome one data row produces, given the
delivery oracle. -/
def rowOutcome (send : Nat → QuizRecord → Bool) (norms : List String) (n : Nat)
    (row : List String) : Outcome :=
  match validateRow norms row with
  | .skipped r => .skipped n r
  | .accepted qr => if send n qr then .accepted n qr else .sendFailed n qr

/-- Statement-side helper: the stream of per-row outcomes for a list of
data rows, numbered from the given start. -/
def rowOutcomes (send : Nat → QuizRecord → Bool) (norms : List String) :
    List (List String) → Nat → List Outcome
  | [], _ => []
  | row :: rest, n => rowOutcome send norms n row :: rowOutcomes send norms rest (n + 1)

/-- Number of successfully delivered records among a list of outcomes. -/
def deliveredCount (outs : List Outcome) : Nat :=
  outs.countP (fun o => match o with | .accepted _ _ => true | _ => false)

/-- Number of rows classified as accepted by validation (delivered or
not) among a list of outcomes. -/
def validationAcceptedCount (outs : List Outcome) : Nat :=
  outs.countP (fun o =>
    match o with
    | .accepted _ _ => true
    | .sendFailed _ _ => true
    | _ => false)

/-- The counts reported by summary outcomes, in order. -/
def summaryCounts (outs : List Outcome) : List Nat :=
  outs.filterMap (fun o => match o with | .summary c => some c | _ => none)

/-- Whether an outcome is the batch summary. -/
def isSummary : Outcome → Bool
  | .summary _ => true
  | _ => false

/-- The list of k consecutive naturals starting at start; used to state the
row-numbering invariants. -/
def seqFrom (start : Nat) : Nat → List Nat
  | 0 => []
  | k + 1 => start :: seqFrom (start + 1) k

/-- Last index at which a key occurs in a list, if any; the specification
value against which header_map is compared. -/
def lastIdx (k : String) : List String → Option Nat
  | [] => none
  | h :: t =>
    match lastIdx k t with
    | some p => some (p + 1)
    | none => if h = k then some 0 else none

/-- A header row with two columns normalizing to the key of Question. -/
def dupHeaders : List String :=
  ["Question", "question", "Option A", "Option B", "Option C", "Option D", "Answer", "Description"]

/-- A header row that permutes the canonical labels with casing, spacing
and punctuation variation. -/
def permHeaders : List String :=
  ["answer", "OPTION B", "Option-C", "option d", "DESCRIPTION", "question", "Option A"]

/-- A header row missing exactly the Option C label. -/
def missingCHeaders : List String :=
  ["Question", "Option A", "Option B", "Option D", "Answer", "Description"]

/-- An input with one valid data row. -/
def c2Input : String :=
  "Question,Option A,Option B,Option C,Option D,Answer,Description\nQ1,1,2,3,4,A,done"

/-- An input with two valid data rows. -/
def c2WitnessContent : String :=
  "Question,Option A,Option B,Option C,Option D,Answer,Description\nQ1,1,2,3,4,A,\nQ2,5,6,7,8,b,why"

/-- An input with three data rows, the middle one carrying an invalid
answer letter. -/
def c9Content : String :=
  "Question,Option A,Option B,Option C,Option D,Answer,Description\nQ1,1,2,3,4,A,\nQ2,1,2,3,4,E,\nQ3,1,2,3,4,d,"

/-- An explanation text of length 241. -/
def longText : String := String.mk (List.replicate 241 'x')

theorem headerMapGo_eq (k : String) :
    ∀ (t : List String) (m : String → Option Nat) (i : Nat),
      headerMapGo m i t k =
        match lastIdx k t with
        | some p => some (i + p)
        | none => m k := by
  intro t
  induction t with
  | nil => intro m i; rfl
  | cons h t ih =>
    intro m i
    show headerMapGo (fun k' => if k' = h then some i else m k') (i + 1) t k = _
    rw [ih]
    cases hl : lastIdx k t with
    | some p =>
      show some (i + 1 + p) = _
      simp only [lastIdx, hl]
      have : i + 1 + p = i + (p + 1) := by omega
      rw [this]
    | none =>
      by_cases hkh : k = h
      · subst hkh
        simp [lastIdx, hl]
      · simp only [lastIdx, hl]
        rw [if_neg hkh, if_neg (fun h' => hkh h'.symm)]

theorem headerMap_eq_lastIdx (norms : List String) (k : String) :
    headerMap norms k = lastIdx k norms := by
  rw [headerMap, headerMapGo_eq]
  cases lastIdx k norms <;> simp

theorem lastIdx_none (k : String) :
    ∀ (t : List String), lastIdx k t = none → ∀ q : Nat, t[q]? ≠ some k := by
  intro t
  induction t with
  | nil => intro _ q; simp
  | cons h t ih =>
    intro hn q
    rw [lastIdx] at hn
    cases hl : lastIdx k t with
    | some p => rw [hl] at hn; exact absurd hn (by simp)
    | none =>
      rw [hl] at hn
      have hhk : h ≠ k := by
        intro he
        rw [if_pos he] at hn
        exact absurd hn (by simp)
      cases q with
      | zero => simp [hhk]
      | succ q' => simpa using ih hl q'

theorem lastIdx_spec (k : String) :
    ∀ (t : List String) (p : Nat), lastIdx k t = some p →
      t[p]? = some k ∧ ∀ q : Nat, p < q → t[q]? ≠ some k := by
  intro t
  induction t with
  | nil => intro p hp; exact absurd hp (by simp [lastIdx])
  | cons h t ih =>
    intro p hp
    rw [lastIdx] at hp
    cases hl : lastIdx k t with
    | some p' =>
      rw [hl] at hp
      have hpe : p = p' + 1 := by
        have := hp
        simp at this
        omega
      subst hpe
      refine ⟨by simpa using (ih p' hl).1, ?_⟩
      intro q hq
      cases q with
      | zero => omega
      | succ q' => simpa using (ih p' hl).2 q' (by omega)
    | none =>
      rw [hl] at hp
      have hhk : h = k := by
        by_cases he : h = k
        · exact he
        · rw [if_neg he] at hp; exact absurd hp (by simp)
      have hp0 : p = 0 := by
        rw [if_pos hhk] at hp
        simp at hp
        omega
      subst hp0
      refine ⟨by simp [hhk], ?_⟩
      intro q hq
      cases q with
      | zero => omega
      | succ q' => simpa using lastIdx_none k t hl q'

theorem lastIdx_isSome (k : String) :
    ∀ (t : List String), k ∈ t → (lastIdx k t).isSome := by
  intro t
  induction t with
  | nil => intro h; simp at h
  | cons h t ih =>
    intro hmem
    rw [lastIdx]
    cases hl : lastIdx k t with
    | some p => simp
    | none =>
      have hk : k = h := by
        rcases List.mem_cons.mp hmem with he | ht
        · exact he
        · have := ih ht
          rw [hl] at this
          simp at this
      rw [if_pos hk.symm]
      simp

/-- Claim C1 (amended): when a header row contains duplicate cells
normalizing to the same key, header_map resolves the key to the LAST
occurrence, the largest column index whose cell normalizes to that key:
the index stored for a key holds that key and no later column does. -/
theorem c1_theorem (headers : List String) (k : String) (i : Nat)
    (hk : headerMap (headers.map normalizeHeader) k = some i) :
    (headers.map normalizeHeader)[i]? = some k
    ∧ ∀ j : Nat, i < j → (headers.map normalizeHeader)[j]? ≠ some k := by
  rw [headerMap_eq_lastIdx] at hk
  exact ⟨(lastIdx_spec k _ i hk).1, (lastIdx_spec k _ i hk).2⟩

/-- Claim C1 counterexample: in a header whose first two cells both
normalize to the key of Question, header_map resolves that key to column
1, not to the smallest column index 0, and get_from_row therefore reads
the second column. -/
theorem c1_counterexample :
    normalizeHeader (dupHeaders.getD 0 "") = "question"
    ∧ normalizeHeader (dupHeaders.getD 1 "") = "question"
    ∧ headerMap (dupHeaders.map normalizeHeader) "question" = some 1
    ∧ headerMap (dupHeaders.map normalizeHeader) "question" ≠ some 0
    ∧ getFromRow (dupHeaders.map normalizeHeader)
        ["first", "second", "1", "2", "3", "4", "A", ""] "question" = "second" := by
  decide

/-- Claim C1 witness: instantiating the amended theorem on a concrete
duplicated header. -/
theorem c1_witness : (["Question", "question"].map normalizeHeader)[1]? = some "question" := by
  have h := c1_theorem ["Question", "question"] "question" 1 (by decide)
  exact h.1

theorem missingNormals_eq_nil_iff (norms : List String) :
    missingNormals norms = [] ↔ ∀ n ∈ requiredNormals, n ∈ norms := by
  rw [missingNormals, List.filter_eq_nil_iff]
  simp

theorem length_filterMap_of_isSome {α β : Type} (f : α → Option β) :
    ∀ (l : List α), (∀ x ∈ l, (f x).isSome) → (l.filterMap f).length = l.length := by
  intro l
  induction l with
  | nil => intro _; simp
  | cons a l ih =>
    intro h
    have ha := h a (List.mem_cons_self a l)
    cases hfa : f a with
    | none => rw [hfa] at ha; simp at ha
    | some b =>
      simp [List.filterMap_cons, hfa, ih (fun x hx => h x (List.mem_cons_of_mem a hx))]

theorem headerMap_isSome_of_mem (norms : List String) (k : String) (hk : k ∈ norms) :
    (headerMap norms k).isSome := by
  rw [headerMap_eq_lastIdx]
  exact lastIdx_isSome k norms hk

/-- Claim C7: a header row whose normalized cells are a permutation of the
seven canonical keys matches the schema (no field is reported missing,
independent of column order since any permutation satisfies the
hypothesis) and yields a column mapping with exactly 7 entries; appending
extra columns changes neither fact. -/
theorem c7_theorem (headers extra : List String)
    (hperm : (headers.map normalizeHeader).Perm requiredNormals) :
    missingNormals (headers.map normalizeHeader) = []
    ∧ (columnMapping headers).length = 7
    ∧ missingNormals ((headers ++ extra).map normalizeHeader) = []
    ∧ (columnMapping (headers ++ extra)).length = 7 := by
  have hmem : ∀ n ∈ requiredNormals, n ∈ headers.map normalizeHeader :=
    fun n hn => hperm.mem_iff.mpr hn
  have hmem' : ∀ n ∈ requiredNormals, n ∈ (headers ++ extra).map normalizeHeader := by
    intro n hn
    rw [List.map_append]
    exact List.mem_append_left _ (hmem n hn)
  have hlen : ∀ (hs : List String), (∀ n ∈ requiredNormals, n ∈ hs.map normalizeHeader) →
      (columnMapping hs).length = 7 := by
    intro hs hms
    rw [columnMapping, length_filterMap_of_isSome]
    · rfl
    · intro rh hrh
      have hsome := headerMap_isSome_of_mem (hs.map normalizeHeader) (normalizeHeader rh)
        (hms _ (List.mem_map_of_mem normalizeHeader hrh))
      cases hh : headerMap (hs.map normalizeHeader) (normalizeHeader rh) with
      | none => rw [hh] at hsome; simp at hsome
      | some v => simp [hh]
  exact ⟨(missingNormals_eq_nil_iff _).mpr hmem, hlen headers hmem,
    (missingNormals_eq_nil_iff _).mpr hmem', hlen (headers ++ extra) hmem'⟩

/-- Claim C7 witness: the amended-free theorem applied to a concrete
permuted header with casing, spacing and punctuation variation, plus one
extra column. -/
theorem c7_witness :
    missingNormals (permHeaders.map normalizeHeader) = []
    ∧ (columnMapping (permHeaders ++ ["Extra"])).length = 7 :=
  ⟨(c7_theorem permHeaders ["Extra"] (by decide)).1,
   (c7_theorem permHeaders ["Extra"] (by decide)).2.2.2⟩

/-- Claim C6: a header row from which at least one canonical field is
absent after normalization makes the whole batch fail with a single fatal
outcome carrying the raw header row and a missing-list holding exactly the
human-readable names of the absent canonical fields; no data row is
processed. -/
theorem c6_theorem (send : Nat → QuizRecord → Bool) (headers : List String)
    (rest : List (List String))
    (habs : ∃ n, n ∈ requiredNormals ∧ ¬ n ∈ headers.map normalizeHeader) :
    processRows send (headers :: rest)
      = [.fatalMissing (humanMissing (headers.map normalizeHeader)) headers]
    ∧ ∀ rh, rh ∈ humanMissing (headers.map normalizeHeader)
        ↔ (rh ∈ requiredHeaders ∧ ¬ normalizeHeader rh ∈ headers.map normalizeHeader) := by
  obtain ⟨n, hn, hna⟩ := habs
  have hne : missingNormals (headers.map normalizeHeader) ≠ [] := by
    intro h
    exact hna ((missingNormals_eq_nil_iff _).mp h n hn)
  constructor
  · show (if missingNormals (headers.map normalizeHeader) = [] then
        processData send (headers.map normalizeHeader)
          (((headers :: rest).filter (fun r => decide (r ≠ []))).drop 1) 1 0
      else [.fatalMissing (humanMissing (headers.map normalizeHeader)) headers]) = _
    rw [if_neg hne]
  · intro rh
    rw [humanMissing, List.mem_filter]
    simp

/-- Claim C6 witness: a header missing exactly the Option C label fails
with a missing-list naming exactly that label, before any data row. -/
theorem c6_witness :
    processRows (fun _ _ => true) (missingCHeaders :: [["Q", "1", "2", "3", "4", "A", "x"]])
      = [.fatalMissing ["Option C"] missingCHeaders] :=
  ((c6_theorem (fun _ _ => true) missingCHeaders [["Q", "1", "2", "3", "4", "A", "x"]]
      ⟨"optionc", by decide, by decide⟩).1).trans (by decide)

theorem validateFields_accepted (q : String) (opts : List String) (ans expl : String) (i : Nat)
    (hq : q ≠ "") (hopts : opts.any (fun o => decide (o = "")) = false)
    (hans : mapper (pyUpper ans) = some i) :
    validateFields q opts ans expl = .accepted ⟨q, opts, i, truncateExpl expl⟩ := by
  simp [validateFields, hq, hopts, hans]

theorem validateFields_invalid (q : String) (opts : List String) (ans expl : String)
    (hq : q ≠ "") (hopts : opts.any (fun o => decide (o = "")) = false)
    (hans : mapper (pyUpper ans) = none) :
    validateFields q opts ans expl = .skipped (.invalidAnswer (pyUpper ans)) := by
  simp [validateFields, hq, hopts, hans]

/-- Claim C4: for a row passing the question and option checks, the eight
letters a, b, c, d, A, B, C, D upper-case into the answer table with
indices 0 to 3, any answer whose upper-case lands in the table is accepted
with that index, and any other answer skips the row with a reason carrying
the offending (upper-cased) value. -/
theorem c4_theorem (q : String) (opts : List String) (ans expl : String)
    (hq : q ≠ "") (hopts : opts.any (fun o => decide (o = "")) = false) :
    (mapper (pyUpper "a") = some 0 ∧ mapper (pyUpper "b") = some 1
      ∧ mapper (pyUpper "c") = some 2 ∧ mapper (pyUpper "d") = some 3
      ∧ mapper (pyUpper "A") = some 0 ∧ mapper (pyUpper "B") = some 1
      ∧ mapper (pyUpper "C") = some 2 ∧ mapper (pyUpper "D") = some 3)
    ∧ (∀ i : Nat, mapper (pyUpper ans) = some i →
        validateFields q opts ans expl = .accepted ⟨q, opts, i, truncateExpl expl⟩)
    ∧ (mapper (pyUpper ans) = none →
        validateFields q opts ans expl = .skipped (.invalidAnswer (pyUpper ans))) :=
  ⟨by decide, fun i hi => validateFields_accepted q opts ans expl i hq hopts hi,
   fun hn => validateFields_invalid q opts ans expl hq hopts hn⟩

/-- Claim C4 witness: a lower-case valid letter is accepted with its index
and an invalid letter is skipped with a reason carrying the value. -/
theorem c4_witness :
    validateFields "Q" ["1", "2", "3", "4"] "e" "" = .skipped (.invalidAnswer "E")
    ∧ validateFields "Q" ["1", "2", "3", "4"] "b" ""
        = .accepted ⟨"Q", ["1", "2", "3", "4"], 1, ""⟩ := by
  have h1 := c4_theorem "Q" ["1", "2", "3", "4"] "e" "" (by decide) (by decide)
  have h2 := c4_theorem "Q" ["1", "2", "3", "4"] "b" "" (by decide) (by decide)
  exact ⟨(h1.2.2 (by decide)).trans (by decide), (h2.2.1 1 (by decide)).trans (by decide)⟩

theorem take_append_len {α : Type} : ∀ (t r : List α), (t ++ r).take t.length = t := by
  intro t r
  induction t with
  | nil => simp
  | cons a t ih => simp [ih]

theorem drop_append_len {α : Type} : ∀ (t r : List α), (t ++ r).drop t.length = r := by
  intro t r
  induction t with
  | nil => simp
  | cons a t ih => simp [ih]

/-- Claim C5: an explanation of length at most 240 passes through the
truncation untouched; a longer one is cut to exactly 240 characters, the
first 237 of which are the original first 237 and the last 3 the ellipsis
marker; and the truncation never rejects the row, since any row passing
the earlier checks is accepted whatever the explanation length. -/
theorem c5_theorem (expl : String) :
    (expl.length ≤ 240 → truncateExpl expl = expl)
    ∧ (240 < expl.length →
        (truncateExpl expl).length = 240
        ∧ (truncateExpl expl).data.take 237 = expl.data.take 237
        ∧ (truncateExpl expl).data.drop 237 = ['.', '.', '.'])
    ∧ (∀ (q : String) (opts : List String) (ans : String) (i : Nat),
        q ≠ "" → opts.any (fun o => decide (o = "")) = false →
        mapper (pyUpper ans) = some i →
        validateFields q opts ans expl = .accepted ⟨q, opts, i, truncateExpl expl⟩) := by
  refine ⟨fun hle => ?_, fun hgt => ?_,
    fun q opts ans i hq hopts hans => validateFields_accepted q opts ans expl i hq hopts hans⟩
  · rw [truncateExpl, if_neg (by omega)]
  · have hdata : (truncateExpl expl).data = expl.data.take 237 ++ ['.', '.', '.'] := by
      rw [truncateExpl, if_pos hgt]
    have hsl : expl.length = expl.data.length := rfl
    have hlen : (expl.data.take 237).length = 237 := by
      rw [List.length_take]
      omega
    refine ⟨?_, ?_, ?_⟩
    · show (truncateExpl expl).data.length = 240
      rw [hdata, List.length_append, hlen]
      decide
    · calc (truncateExpl expl).data.take 237
          = (expl.data.take 237 ++ ['.', '.', '.']).take (expl.data.take 237).length := by
            rw [hdata, hlen]
        _ = expl.data.take 237 := take_append_len _ _
    · calc (truncateExpl expl).data.drop 237
          = (expl.data.take 237 ++ ['.', '.', '.']).drop (expl.data.take 237).length := by
            rw [hdata, hlen]
        _ = ['.', '.', '.'] := drop_append_len _ _

/-- Claim C5 witness: a 241-character explanation truncates to exactly 240
characters ending in the ellipsis marker. -/
theorem c5_witness :
    240 < longText.length
    ∧ (truncateExpl longText).length = 240
    ∧ (truncateExpl longText).data.drop 237 = ['.', '.', '.'] := by
  have h : 240 < longText.length := by
    show 240 < (List.replicate 241 'x').length
    rw [List.length_replicate]
    omega
  exact ⟨h, ((c5_theorem longText).2.1 h).1, ((c5_theorem longText).2.1 h).2.2⟩

/-- Claim C8: the sniffing step is a total function of the first 4096
characters of the input (the sample the source reads is never longer than
4096 characters, and two inputs with equal samples sniff alike), and a
sniffer failure, modelled as the oracle returning none in place of an
exception, is absorbed into the default comma-delimited double-quote
dialect rather than surfacing to the caller. -/
theorem c8_theorem (oracle : String → Option Dialect) (s1 s2 : String) :
    (oracle (sampleOf s1) = none → sniffDialect oracle s1 = csvExcel)
    ∧ (sampleOf s1 = sampleOf s2 → sniffDialect oracle s1 = sniffDialect oracle s2)
    ∧ (sampleOf s1).length ≤ 4096 := by
  refine ⟨fun hfail => ?_, fun hagree => ?_, ?_⟩
  · show (match oracle (sampleOf s1) with | some d => d | none => csvExcel) = csvExcel
    rw [hfail]
  · show (match oracle (sampleOf s1) with | some d => d | none => csvExcel)
        = (match oracle (sampleOf s2) with | some d => d | none => csvExcel)
    rw [hagree]
  · show (s1.data.take 4096).length ≤ 4096
    rw [List.length_take]
    omega

/-- Claim C8 witness: a failing sniffer on a concrete input falls back to
the default dialect, and the sample is within the bound. -/
theorem c8_witness :
    sniffDialect (fun _ => none) "a,b" = csvExcel ∧ (sampleOf "a,b").length ≤ 4096 :=
  ⟨(c8_theorem (fun _ => none) "a,b" "a,b").1 rfl,
   (c8_theorem (fun _ => none) "a,b" "a,b").2.2⟩

theorem deliveredCount_cons_skipped (n : Nat) (r : SkipReason) (l : List Outcome) :
    deliveredCount (.skipped n r :: l) = deliveredCount l := by
  simp [deliveredCount, List.countP_cons]

theorem deliveredCount_cons_accepted (n : Nat) (qr : QuizRecord) (l : List Outcome) :
    deliveredCount (.accepted n qr :: l) = deliveredCount l + 1 := by
  simp [deliveredCount, List.countP_cons]

theorem deliveredCount_cons_sendFailed (n : Nat) (qr : QuizRecord) (l : List Outcome) :
    deliveredCount (.sendFailed n qr :: l) = deliveredCount l := by
  simp [deliveredCount, List.countP_cons]

theorem processData_eq (send : Nat → QuizRecord → Bool) (norms : List String) :
    ∀ (rows : List (List String)) (n c : Nat),
      processData send norms rows n c
        = rowOutcomes send norms rows n
          ++ [.summary (c + deliveredCount (rowOutcomes send norms rows n))] := by
  intro rows
  induction rows with
  | nil => intro n c; simp [processData, rowOutcomes, deliveredCount]
  | cons row rest ih =>
    intro n c
    cases hv : validateRow norms row with
    | skipped r =>
      have lhs : processData send norms (row :: rest) n c
          = .skipped n r :: processData send norms rest (n + 1) c := by
        simp [processData, hv]
      have rhs : rowOutcomes send norms (row :: rest) n
          = .skipped n r :: rowOutcomes send norms rest (n + 1) := by
        simp [rowOutcomes, rowOutcome, hv]
      rw [lhs, rhs, ih, deliveredCount_cons_skipped]
      rfl
    | accepted qr =>
      cases hs : send n qr with
      | true =>
        have lhs : processData send norms (row :: rest) n c
            = .accepted n qr :: processData send norms rest (n + 1) (c + 1) := by
          simp [processData, hv, hs]
        have rhs : rowOutcomes send norms (row :: rest) n
            = .accepted n qr :: rowOutcomes send norms rest (n + 1) := by
          simp [rowOutcomes, rowOutcome, hv, hs]
        rw [lhs, rhs, ih, deliveredCount_cons_accepted]
        have harith : c + 1 + deliveredCount (rowOutcomes send norms rest (n + 1))
            = c + (deliveredCount (rowOutcomes send norms rest (n + 1)) + 1) := by omega
        rw [harith]
        rfl
      | false =>
        have lhs : processData send norms (row :: rest) n c
            = .sendFailed n qr :: processData send norms rest (n + 1) c := by
          simp [processData, hv, hs]
        have rhs : rowOutcomes send norms (row :: rest) n
            = .sendFailed n qr :: rowOutcomes send norms rest (n + 1) := by
          simp [rowOutcomes, rowOutcome, hv, hs]
        rw [lhs, rhs, ih, deliveredCount_cons_sendFailed]
        rfl

theorem rowOutcomes_length (send : Nat → QuizRecord → Bool) (norms : List String) :
    ∀ (rows : List (List String)) (n : Nat), (rowOutcomes send norms rows n).length = rows.length := by
  intro rows
  induction rows with
  | nil => intro n; rfl
  | cons row rest ih => intro n; simp [rowOutcomes, ih]

theorem rowNum_rowOutcome (send : Nat → QuizRecord → Bool) (norms : List String) (n : Nat)
    (row : List String) : (rowOutcome send norms n row).rowNum = some n := by
  cases hv : validateRow norms row with
  | skipped r => simp [rowOutcome, hv, Outcome.rowNum]
  | accepted qr => cases hs : send n qr <;> simp [rowOutcome, hv, hs, Outcome.rowNum]

theorem isSummary_rowOutcome (send : Nat → QuizRecord → Bool) (norms : List String) (n : Nat)
    (row : List String) : isSummary (rowOutcome send norms n row) = false := by
  cases hv : validateRow norms row with
  | skipped r => simp [rowOutcome, hv, isSummary]
  | accepted qr => cases hs : send n qr <;> simp [rowOutcome, hv, hs, isSummary]

theorem rowOutcomes_rowNums (send : Nat → QuizRecord → Bool) (norms : List String) :
    ∀ (rows : List (List String)) (n : Nat),
      (rowOutcomes send norms rows n).filterMap Outcome.rowNum = seqFrom n rows.length := by
  intro rows
  induction rows with
  | nil => intro n; rfl
  | cons row rest ih =>
    intro n
    simp [rowOutcomes, List.filterMap_cons, rowNum_rowOutcome, seqFrom, ih]

theorem rowOutcomes_summary_count (send : Nat → QuizRecord → Bool) (norms : List String) :
    ∀ (rows : List (List String)) (n : Nat),
      (rowOutcomes send norms rows n).countP isSummary = 0 := by
  intro rows
  induction rows with
  | nil => intro n; rfl
  | cons row rest ih =>
    intro n
    simp [rowOutcomes, List.countP_cons, isSummary_rowOutcome, ih]

theorem processRows_ok (send : Nat → QuizRecord → Bool) (headers : List String)
    (rest : List (List String))
    (hm : missingNormals (headers.map normalizeHeader) = []) :
    processRows send (headers :: rest)
      = processData send (headers.map normalizeHeader)
          (rest.filter (fun r => decide (r ≠ []))) 1 0 := by
  have hne : headers ≠ [] := by
    intro h
    subst h
    exact absurd hm (by decide)
  show (if missingNormals (headers.map normalizeHeader) = [] then
      processData send (headers.map normalizeHeader)
        (((headers :: rest).filter (fun r => decide (r ≠ []))).drop 1) 1 0
    else [.fatalMissing (humanMissing (headers.map normalizeHeader)) headers]) = _
  rw [if_pos hm]
  congr 1
  rw [List.filter_cons, if_pos (by exact decide_eq_true hne)]
  rfl

/-- Claim C2 (amended): for a non-fatal batch, the final summary reports
the number of accepted records successfully delivered, not the number
accepted by validation: a delivery failure excludes that record from the
count, but — for every delivery oracle — it neither corrupts the row
numbering of subsequent rows nor stops subsequent rows from being
produced, as the per-row outcome stream carries the numbers 1 through the
data-row count regardless of the oracle. -/
theorem c2_theorem (send : Nat → QuizRecord → Bool) (content : String)
    (headers : List String) (rest : List (List String))
    (hr : readerRows content = headers :: rest)
    (hm : missingNormals (headers.map normalizeHeader) = []) :
    processCsvContent send content
      = rowOutcomes send (headers.map normalizeHeader)
          (rest.filter (fun r => decide (r ≠ []))) 1
        ++ [.summary (deliveredCount (rowOutcomes send (headers.map normalizeHeader)
              (rest.filter (fun r => decide (r ≠ []))) 1))]
    ∧ (rowOutcomes send (headers.map normalizeHeader)
          (rest.filter (fun r => decide (r ≠ []))) 1).filterMap Outcome.rowNum
        = seqFrom 1 (rest.filter (fun r => decide (r ≠ []))).length := by
  constructor
  · rw [processCsvContent, hr, processRows_ok send headers rest hm, processData_eq]
    simp
  · exact rowOutcomes_rowNums send _ _ 1

/-- Claim C2 counterexample: an input with one row accepted by validation
whose delivery fails ends with a summary count of 0, although one row was
classified accepted, so the summary does not report the validation-accepted
count. -/
theorem c2_counterexample :
    processCsvContent (fun _ _ => false) c2Input
      = [.sendFailed 1 ⟨"Q1", ["1", "2", "3", "4"], 0, "done"⟩, .summary 0]
    ∧ validationAcceptedCount (processCsvContent (fun _ _ => false) c2Input) = 1
    ∧ summaryCounts (processCsvContent (fun _ _ => false) c2Input) = [0] := by
  decide

/-- Claim C2 witness: with delivery failing exactly on row 1 of two valid
rows, row 2 is still produced and numbered 2, and the summary counts only
the delivered record. -/
theorem c2_witness :
    processCsvContent (fun n _ => decide (n ≠ 1)) c2WitnessContent
      = [.sendFailed 1 ⟨"Q1", ["1", "2", "3", "4"], 0, ""⟩,
         .accepted 2 ⟨"Q2", ["5", "6", "7", "8"], 1, "why"⟩,
         .summary 1] :=
  ((c2_theorem (fun n _ => decide (n ≠ 1)) c2WitnessContent
      ["Question", "Option A", "Option B", "Option C", "Option D", "Answer", "Description"]
      [["Q1", "1", "2", "3", "4", "A", ""], ["Q2", "5", "6", "7", "8", "b", "why"]]
      (by decide) (by decide)).1).trans (by decide)

/-- Claim C3 counterexample: the single-space input is empty after
whitespace-trimming, yet the batch does not end with the empty-input
fatal: the space parses as a one-cell header row and the batch fails with
the missing-headers fatal instead. -/
theorem c3_counterexample :
    processCsvContent (fun _ _ => true) " " ≠ [.fatalEmpty]
    ∧ processCsvContent (fun _ _ => true) " " = [.fatalMissing requiredHeaders [" "]] := by
  decide

/-- Claim C3 (amended): only the genuinely empty input text (the empty
string, for which the reader yields no row at all) produces the single
empty-input fatal outcome, with no row outcomes and no summary; a
whitespace-only nonempty input instead fails with the missing-headers
fatal. -/
theorem c3_theorem (send : Nat → QuizRecord → Bool) :
    processCsvContent send "" = [.fatalEmpty] := rfl

/-- Claim C9: for a non-fatal batch, each data row yields exactly one row
outcome — the outcome count is the data-row count plus the single summary
— and the row outcomes carry the 1-indexed numbers 1 through the data-row
count in input order, for every delivery oracle, so processing advances
unconditionally after a skip. -/
theorem c9_theorem (send : Nat → QuizRecord → Bool) (content : String)
    (headers : List String) (rest : List (List String))
    (hr : readerRows content = headers :: rest)
    (hm : missingNormals (headers.map normalizeHeader) = []) :
    (processCsvContent send content).length
        = (rest.filter (fun r => decide (r ≠ []))).length + 1
    ∧ (processCsvContent send content).filterMap Outcome.rowNum
        = seqFrom 1 (rest.filter (fun r => decide (r ≠ []))).length
    ∧ (processCsvContent send content).countP isSummary = 1 := by
  have hp : processCsvContent send content
      = rowOutcomes send (headers.map normalizeHeader)
          (rest.filter (fun r => decide (r ≠ []))) 1
        ++ [.summary (0 + deliveredCount (rowOutcomes send (headers.map normalizeHeader)
              (rest.filter (fun r => decide (r ≠ []))) 1))] := by
    rw [processCsvContent, hr, processRows_ok send headers rest hm, processData_eq]
  refine ⟨?_, ?_, ?_⟩
  · rw [hp, List.length_append, rowOutcomes_length]
    rfl
  · rw [hp, List.filterMap_append, rowOutcomes_rowNums]
    simp [Outcome.rowNum]
  · rw [hp, List.countP_append, rowOutcomes_summary_count]
    rfl

/-- Claim C9 witness: three data rows, the middle one skipped for an
invalid answer, give exactly four outcomes numbered 1, 2, 3 plus one
summary. -/
theorem c9_witness :
    (processCsvContent (fun _ _ => true) c9Content).length = 4
    ∧ (processCsvContent (fun _ _ => true) c9Content).filterMap Outcome.rowNum = [1, 2, 3]
    ∧ (processCsvContent (fun _ _ => true) c9Content).countP isSummary = 1 := by
  have h := c9_theorem (fun _ _ => true) c9Content
    ["Question", "Option A", "Option B", "Option C", "Option D", "Answer", "Description"]
    [["Q1", "1", "2", "3", "4", "A", ""], ["Q2", "1", "2", "3", "4", "E", ""],
     ["Q3", "1", "2", "3", "4", "d", ""]]
    (by decide) (by decide)
  exact ⟨h.1.trans (by decide), h.2.1.trans (by decide), h.2.2⟩

/-- Claim C10: a blank line in the data section parses to the empty row
and the empty row is dropped before decoding, producing no outcome and
consuming no row number: the outcome stream with a blank row inserted
anywhere in the data section equals the stream without it, so the
1-indexed numbers count only non-blank rows in input order. -/
theorem c10_theorem (send : Nat → QuizRecord → Bool) (h : List String)
    (a b : List (List String)) :
    processRows send (h :: (a ++ [] :: b)) = processRows send (h :: (a ++ b))
    ∧ readerRows "x\n\ny" = [["x"], [], ["y"]] := by
  constructor
  · have hf : (a ++ [] :: b).filter (fun r => decide (r ≠ []))
        = (a ++ b).filter (fun r => decide (r ≠ [])) := by
      rw [List.filter_append, List.filter_append, List.filter_cons]
      simp
    show (if missingNormals (h.map normalizeHeader) = [] then
        processData send (h.map normalizeHeader)
          (((h :: (a ++ [] :: b)).filter (fun r => decide (r ≠ []))).drop 1) 1 0
      else [.fatalMissing (humanMissing (h.map normalizeHeader)) h])
      = (if missingNormals (h.map normalizeHeader) = [] then
        processData send (h.map normalizeHeader)
          (((h :: (a ++ b)).filter (fun r => decide (r ≠ []))).drop 1) 1 0
      else [.fatalMissing (humanMissing (h.map normalizeHeader)) h])
    rw [List.filter_cons, List.filter_cons, hf]
  · decide
